import Mathlib

/-!
Shallow embedding of the spaced-repetition flashcard core of the
British-Citizenship-Test repository (the FlashCardManager component):
the review scheduler, due-card selection, deck statistics, and the
review-session state machine, together with proofs of the specified
properties.
-/

namespace FlashCards

/-- A flashcard, mirroring the FlashCard interface of types.ts:
id, front, back, box (SRS level), nextReview and createdAt timestamps
in milliseconds, and a topic label. -/
structure FlashCard where
  id : String
  front : String
  back : String
  box : Nat
  nextReview : Int
  createdAt : Int
  topic : String
deriving Repr, DecidableEq

/-- The fixed spaced-repetition interval table in days, from
handleReviewResult: const intervals = [1, 3, 7, 14, 30, 90]. -/
def intervals : List Nat := [1, 3, 7, 14, 30, 90]

/-- Milliseconds in one day: 24 * 60 * 60 * 1000. -/
def msPerDay : Int := 24 * 60 * 60 * 1000

/-- The result of one scheduling step: the new box and the new
nextReview timestamp. -/
structure ScheduleResult where
  newBox : Nat
  nextReview : Int
deriving Repr, DecidableEq

/-- JavaScript truthy-or fallback used in the interval lookup
(intervals[newBox - 1] || 1): an out-of-range index (undefined) or a
zero entry falls back to 1. -/
def jsOrOne (x : Option Nat) : Nat :=
  match x with
  | some d => if d = 0 then 1 else d
  | none => 1

/-- The scheduler core of handleReviewResult (part_000 lines 97-118):
on success the box becomes min(currentBox + 1, intervals.length) and
nextReview is now plus the table interval for the new box (1-indexed,
with the || 1 fallback); on failure the box resets to 0 and nextReview
is now plus one day. -/
def handleReviewSchedule (now : Int) (currentBox : Nat) (success : Bool) :
    ScheduleResult :=
  if success then
    let newBox := min (currentBox + 1) intervals.length
    let daysToAdd := jsOrOne (intervals.get? (newBox - 1))
    { newBox := newBox, nextReview := now + (daysToAdd : Int) * msPerDay }
  else
    { newBox := 0, nextReview := now + msPerDay }

/-- Due-card selection and ordering of startReview (part_000 line 77):
filter the collection to cards with nextReview <= now and sort
ascending by nextReview (JavaScript sort with comparator
(a, b) => a.nextReview - b.nextReview is a stable ascending sort,
modelled by stable mergeSort). -/
def dueSorted (now : Int) (cards : List FlashCard) : List FlashCard :=
  (cards.filter (fun c => c.nextReview ≤ now)).mergeSort
    (fun a b => a.nextReview ≤ b.nextReview)

/-- Deck-level aggregate statistics, mirroring FlashCardDeckStats of
types.ts. -/
structure FlashCardDeckStats where
  totalCards : Nat
  dueCards : Nat
  masteredCards : Nat
deriving Repr, DecidableEq

/-- The stats computation of FlashCardManager (part_000 lines 46-50):
total card count, count of cards with nextReview <= now, and count of
cards with box >= 4. -/
def stats (now : Int) (cards : List FlashCard) : FlashCardDeckStats :=
  { totalCards := cards.length
  , dueCards := (cards.filter (fun c => c.nextReview ≤ now)).length
  , masteredCards := (cards.filter (fun c => 4 ≤ c.box)).length }

/-- Review-session state: either no session has started, a session is
active at a cursor position with a reveal flag (isReviewing = true
together with currentCardIndex and isFlipped), or the session has
ended (isReviewing = false after a session). -/
inductive SessionState where
  | notStarted
  | active (cursor : Nat) (revealed : Bool)
  | ended
deriving Repr, DecidableEq

/-- The state of the FlashCardManager component relevant to the core:
the card collection, the review queue, and the session state. -/
structure ManagerState where
  cards : List FlashCard
  queue : List FlashCard
  session : SessionState
deriving Repr, DecidableEq

/-- One persistence upsert, recording which card id was updated and
the new box and nextReview written for it. The code persists via
saveCards(updatedCards), whose effect on the durable store is to
upsert the card with this id; one such record is logged per
saveCards call issued by an outcome transition. -/
structure Upsert where
  id : String
  box : Nat
  nextReview : Int
deriving Repr, DecidableEq

/-- Caller-driven events of the review session: startReview, flipping
the current card, reporting an outcome (handleReviewResult), and the
Quit button. -/
inductive Event where
  | start (now : Int)
  | reveal
  | outcome (now : Int) (success : Bool)
  | quit
deriving DecidableEq

/-- The card-collection update of handleReviewResult (part_000 lines
120-124): map over the collection, replacing box and nextReview on
every card whose id equals the id of the current card and leaving all other
cards unchanged. -/
def updateCards (cards : List FlashCard) (cid : String) (newBox : Nat)
    (nextReview : Int) : List FlashCard :=
  cards.map fun c =>
    if c.id = cid then { c with box := newBox, nextReview := nextReview } else c

/-- One transition of the FlashCardManager session logic, returning
the new state and the list of persistence upserts issued, or none when
the event does not apply (e.g. an outcome with no current card).
start: build the due queue and enter the session at cursor 0,
unflipped (startReview). reveal: toggle isFlipped. outcome: run the
scheduler on the current card, update the collection, persist, and
either advance the cursor (unflipping) or end the session
(handleReviewResult). quit: leave the session with no scheduler call
and no persistence. -/
def step (s : ManagerState) (e : Event) : Option (ManagerState × List Upsert) :=
  match e, s.session with
  | .start now, _ =>
      some ({ s with
                queue := dueSorted now s.cards,
                session := .active 0 false }, [])
  | .reveal, .active cursor revealed =>
      some ({ s with session := .active cursor (!revealed) }, [])
  | .outcome now success, .active cursor _ =>
      match s.queue.get? cursor with
      | none => none
      | some currentCard =>
        let r := handleReviewSchedule now currentCard.box success
        let updated := updateCards s.cards currentCard.id r.newBox r.nextReview
        let sess : SessionState :=
          if cursor < s.queue.length - 1 then .active (cursor + 1) false
          else .ended
        some ({ s with cards := updated, session := sess },
          [⟨currentCard.id, r.newBox, r.nextReview⟩])
  | .quit, .active _ _ =>
      some ({ s with session := .ended }, [])
  | _, _ => none

/-- Run a list of events from a state, threading the state and
concatenating the persistence upserts; none if any step fails. -/
def run (s : ManagerState) : List Event → Option (ManagerState × List Upsert)
  | [] => some (s, [])
  | e :: es =>
    match step s e with
    | none => none
    | some (s2, ups) =>
      match run s2 es with
      | none => none
      | some (s3, ups2) => some (s3, ups ++ ups2)

/-- The two seed cards created when local storage is empty (part_000
lines 32-35); both start in box 0 and are due immediately. -/
def seedCards (now : Int) : List FlashCard :=
  [ { id := "1", front := "What constitutes the UK?",
      back := "England, Scotland, Wales, and Northern Ireland.",
      box := 0, nextReview := now, createdAt := now, topic := "Geography" }
  , { id := "2", front := "Who built the Tower of London?",
      back := "William the Conqueror",
      box := 0, nextReview := now, createdAt := now, topic := "History" } ]

/-- A record returned by the external content provider
(generateFlashCards): front, back and topic text. -/
structure GeneratedCardData where
  front : String
  back : String
  topic : String
deriving Repr, DecidableEq

/-- The card constructed from one generated record in handleGenerate
(part_000 lines 57-63): a fresh id, box 0, due immediately. -/
def mkGeneratedCard (now : Int) (freshId : String) (g : GeneratedCardData) :
    FlashCard :=
  { id := freshId, front := g.front, back := g.back, box := 0,
    nextReview := now, createdAt := now, topic := g.topic }

/-- handleGenerate (part_000 lines 52-74): append the newly built
cards to the collection (the fresh random ids are passed in
explicitly). -/
def handleGenerate (now : Int) (freshIds : List String)
    (gs : List GeneratedCardData) (cards : List FlashCard) : List FlashCard :=
  cards ++ List.zipWith (mkGeneratedCard now) freshIds gs

end FlashCards

namespace FlashCards

/-- Claim C1: for every currentBox in [0,6], the scheduler on
success = false yields newBox = 0 and nextReview = now + 86400000
milliseconds (one day), regardless of currentBox. -/
theorem schedule_failure_resets (now : Int) (b : Nat) (hb : b ≤ 6) :
    handleReviewSchedule now b false = ⟨0, now + 86400000⟩ := by
  simp [handleReviewSchedule, msPerDay]

/-- Witness for C1 at currentBox = 5, now = 1000. -/
theorem schedule_failure_resets_witness :
    handleReviewSchedule 1000 5 false = ⟨0, 1000 + 86400000⟩ :=
  schedule_failure_resets 1000 5 (by decide)

/-- Claim C2: for every currentBox in [0,6], the scheduler on
success = true yields newBox = min(currentBox + 1, 6), the interval
table lookup at index newBox - 1 succeeds with some entry d, and
nextReview = now + d * 86400000; in particular at currentBox = 0 the
next review is exactly one day out. -/
theorem schedule_success_promotes (now : Int) (b : Nat) (hb : b ≤ 6) :
    (handleReviewSchedule now b true).newBox = min (b + 1) 6 ∧
    (∃ d, intervals.get? ((handleReviewSchedule now b true).newBox - 1) = some d ∧
      (handleReviewSchedule now b true).nextReview = now + (d : Int) * 86400000) ∧
    (handleReviewSchedule now 0 true).nextReview = now + 86400000 := by
  interval_cases b <;>
    simp [handleReviewSchedule, intervals, jsOrOne, msPerDay]

/-- Witness for C2 at currentBox = 3, now = 0: the scheduler moves the
card to box 4 with a 14-day interval. -/
theorem schedule_success_promotes_witness :
    (handleReviewSchedule 0 3 true).newBox = min (3 + 1) 6 ∧
    (∃ d, intervals.get? ((handleReviewSchedule 0 3 true).newBox - 1) = some d ∧
      (handleReviewSchedule 0 3 true).nextReview = 0 + (d : Int) * 86400000) ∧
    (handleReviewSchedule 0 0 true).nextReview = 0 + 86400000 :=
  schedule_success_promotes 0 3 (by decide)

/-- Claim C3: the scheduler saturates at box 6: a success at box 6
yields box 6 again with nextReview exactly 90 days after the review
time, and iterating the success step on the box component any number
of times from box 6 leaves it at 6. -/
theorem schedule_saturates_at_six (now : Int) :
    handleReviewSchedule now 6 true = ⟨6, now + 90 * 86400000⟩ ∧
    ∀ k : Nat,
      (fun b => (handleReviewSchedule 0 b true).newBox)^[k] 6 = 6 := by
  constructor
  · simp [handleReviewSchedule, intervals, jsOrOne, msPerDay]
  · intro k
    induction k with
    | zero => rfl
    | succ n ih =>
      rw [Function.iterate_succ_apply, show
        (handleReviewSchedule 0 6 true).newBox = 6 by
          simp [handleReviewSchedule, intervals]]
      exact ih

/-- Claim C10: for every currentBox in [0,6] and either outcome, the
scheduled nextReview is at least one day (86400000 ms) in the future,
and on success the interval-table lookup at the index actually used
(min(currentBox + 1, 6) - 1) succeeds with an entry of at least 1 day,
so the || 1 fallback is never what produces the interval. -/
theorem schedule_never_immediately_due (now : Int) (b : Nat) (hb : b ≤ 6)
    (success : Bool) :
    now + 86400000 ≤ (handleReviewSchedule now b success).nextReview ∧
    (success = true →
      ∃ d, intervals.get? (min (b + 1) 6 - 1) = some d ∧ 1 ≤ d) := by
  cases success <;> interval_cases b <;>
    simp [handleReviewSchedule, intervals, jsOrOne, msPerDay]

/-- Witness for C10 at currentBox = 6 with success = true, now = 0. -/
theorem schedule_never_immediately_due_witness :
    (0 : Int) + 86400000 ≤ (handleReviewSchedule 0 6 true).nextReview ∧
    (true = true →
      ∃ d, intervals.get? (min (6 + 1) 6 - 1) = some d ∧ 1 ≤ d) :=
  schedule_never_immediately_due 0 6 (by decide) true

/-- Unfolding lemma: an outcome step from an active session with a
current card under the cursor performs the scheduler update, keeps the
queue, and advances or ends. -/
lemma step_outcome_eq (s : ManagerState) (now : Int) (success : Bool)
    (cursor : Nat) (r : Bool) (c : FlashCard)
    (hsess : s.session = .active cursor r)
    (hq : s.queue.get? cursor = some c) :
    step s (.outcome now success) =
      some ({ s with
                cards := updateCards s.cards c.id
                  (handleReviewSchedule now c.box success).newBox
                  (handleReviewSchedule now c.box success).nextReview,
                session := if cursor < s.queue.length - 1 then
                    .active (cursor + 1) false
                  else .ended },
        [⟨c.id, (handleReviewSchedule now c.box success).newBox,
          (handleReviewSchedule now c.box success).nextReview⟩]) := by
  have hq2 : s.queue[cursor]? = some c := by simpa using hq
  simp [step, hsess, hq2]

/-- Unfolding lemma: a quit step from any active session ends the
session, changes nothing else, and issues no persistence upsert. -/
lemma step_quit_eq (s : ManagerState) (cursor : Nat) (r : Bool)
    (hsess : s.session = .active cursor r) :
    step s .quit = some ({ s with session := .ended }, []) := by
  simp [step, hsess]

/-- Unfolding lemma: a reveal step from any active session toggles the
reveal flag, changes nothing else, and issues no persistence upsert. -/
lemma step_reveal_eq (s : ManagerState) (cursor : Nat) (r : Bool)
    (hsess : s.session = .active cursor r) :
    step s .reveal = some ({ s with session := .active cursor (!r) }, []) := by
  simp [step, hsess]

/-- Helper: any step whose event is not a start leaves the review
queue unchanged. -/
lemma step_queue_eq {s s2 : ManagerState} {e : Event} {ups : List Upsert}
    (hne : ∀ n : Int, e ≠ .start n) (hstep : step s e = some (s2, ups)) :
    s2.queue = s.queue := by
  obtain ⟨cs, q, sess⟩ := s
  cases e with
  | start n => exact absurd rfl (hne n)
  | reveal =>
    cases sess <;> simp [step] at hstep
    obtain ⟨h1, -⟩ := hstep
    rw [← h1]
  | outcome now success =>
    cases sess with
    | notStarted => simp [step] at hstep
    | ended => simp [step] at hstep
    | active cursor r =>
      simp only [step] at hstep
      rcases hq : q.get? cursor with _ | c <;> rw [hq] at hstep
      · simp at hstep
      · simp at hstep
        obtain ⟨h1, -⟩ := hstep
        rw [← h1]
  | quit =>
    cases sess <;> simp [step] at hstep
    obtain ⟨h1, -⟩ := hstep
    rw [← h1]

/-- Concrete card fixtures used by the witnesses: with now = 10000,
cardA and cardC are due (nextReview 9000 and 5000) and cardB is not
(nextReview 11000); their boxes are 0, 2, 4 and 5. -/
def cardA : FlashCard :=
  { id := "a", front := "qa", back := "ra", box := 0, nextReview := 9000,
    createdAt := 0, topic := "t" }

/-- Second fixture card (not due at now = 10000). -/
def cardB : FlashCard :=
  { id := "b", front := "qb", back := "rb", box := 2, nextReview := 11000,
    createdAt := 0, topic := "t" }

/-- Third fixture card (earliest due). -/
def cardC : FlashCard :=
  { id := "c", front := "qc", back := "rc", box := 4, nextReview := 5000,
    createdAt := 0, topic := "t" }

/-- Fourth fixture card. -/
def cardD : FlashCard :=
  { id := "d", front := "qd", back := "rd", box := 5, nextReview := 7000,
    createdAt := 0, topic := "t" }

/-- Claim C4: the due queue built at session start contains exactly
the cards with nextReview <= now (as a permutation of the filtered
collection, so nothing is added or dropped), is ordered ascending by
nextReview, and every non-start transition of the session leaves the
queue unchanged. -/
theorem due_queue_spec (now : Int) (cards : List FlashCard) :
    (∀ c, c ∈ dueSorted now cards ↔ c ∈ cards ∧ c.nextReview ≤ now) ∧
    List.Pairwise (fun a b : FlashCard => a.nextReview ≤ b.nextReview)
      (dueSorted now cards) ∧
    List.Perm (dueSorted now cards)
      (cards.filter (fun c => c.nextReview ≤ now)) ∧
    (∀ (s s2 : ManagerState) (e : Event) (ups : List Upsert),
      (∀ n : Int, e ≠ Event.start n) → step s e = some (s2, ups) →
      s2.queue = s.queue) := by
  refine ⟨?_, ?_, ?_, ?_⟩
  · intro c
    simp [dueSorted]
  · have h2 : List.Pairwise
        (fun a b : FlashCard => decide (a.nextReview ≤ b.nextReview) = true)
        ((cards.filter (fun c => c.nextReview ≤ now)).mergeSort
          (fun a b => decide (a.nextReview ≤ b.nextReview))) :=
      List.sorted_mergeSort
        (by
          intro a b c hab hbc
          simp only [decide_eq_true_iff] at *
          exact le_trans hab hbc)
        (by
          intro a b
          simpa using Int.le_total a.nextReview b.nextReview)
        (cards.filter (fun c => c.nextReview ≤ now))
    unfold dueSorted
    exact h2.imp (fun h => by simpa using h)
  · exact List.mergeSort_perm _ _
  · intro s s2 e ups hne hstep
    exact step_queue_eq hne hstep

/-- Witness for C4: with now = 10000 and cards [cardA, cardB, cardC]
(nextReview now-1000, now+1000, now-5000), cardC is in the due queue
and cardB is not; and a quit step from an active session keeps the
queue. -/
theorem due_queue_spec_witness :
    cardC ∈ dueSorted 10000 [cardA, cardB, cardC] ∧
    cardB ∉ dueSorted 10000 [cardA, cardB, cardC] ∧
    (⟨[cardA], [cardA], SessionState.ended⟩ : ManagerState).queue =
      (⟨[cardA], [cardA], SessionState.active 0 false⟩ : ManagerState).queue := by
  refine ⟨?_, ?_, ?_⟩
  · exact ((due_queue_spec 10000 [cardA, cardB, cardC]).1 cardC).mpr
      ⟨by simp, by decide⟩
  · intro hmem
    have h := ((due_queue_spec 10000 [cardA, cardB, cardC]).1 cardB).mp hmem
    exact absurd h.2 (by decide)
  · exact (due_queue_spec 10000 []).2.2.2
      ⟨[cardA], [cardA], SessionState.active 0 false⟩
      ⟨[cardA], [cardA], SessionState.ended⟩ Event.quit []
      (fun n h => Event.noConfusion h) rfl

/-- Claim C5: the deck statistics are the collection size, the count
of cards with nextReview <= now, and the count of cards with box >= 4;
in particular a deck whose boxes are [0, 2, 4, 5] has exactly 2
mastered cards. -/
theorem stats_spec (now : Int) (cards : List FlashCard) :
    (stats now cards).totalCards = cards.length ∧
    (stats now cards).dueCards = cards.countP (fun c => c.nextReview ≤ now) ∧
    (stats now cards).masteredCards = cards.countP (fun c => 4 ≤ c.box) ∧
    (∀ c0 c1 c2 c3 : FlashCard, c0.box = 0 → c1.box = 2 → c2.box = 4 →
      c3.box = 5 → (stats now [c0, c1, c2, c3]).masteredCards = 2) := by
  refine ⟨rfl, ?_, ?_, ?_⟩
  · simp [stats, List.countP_eq_length_filter]
  · simp [stats, List.countP_eq_length_filter]
  · intro c0 c1 c2 c3 h0 h1 h2 h3
    simp [stats, h0, h1, h2, h3]

/-- Witness for C5 on the fixture cards (boxes 0, 2, 4, 5). -/
theorem stats_spec_witness :
    (stats 10000 [cardA, cardB, cardC, cardD]).masteredCards = 2 :=
  (stats_spec 10000 []).2.2.2 cardA cardB cardC cardD rfl rfl rfl rfl

/-- Unfolding lemma: an outcome step with no card under the cursor is
rejected. -/
lemma step_outcome_none (s : ManagerState) (now : Int) (success : Bool)
    (cursor : Nat) (r : Bool) (hsess : s.session = .active cursor r)
    (hq : s.queue.get? cursor = none) :
    step s (.outcome now success) = none := by
  have hq2 : s.queue[cursor]? = none := by simpa using hq
  simp [step, hsess, hq2]

/-- Unfolding lemma: running no events changes nothing. -/
lemma run_nil (s : ManagerState) : run s [] = some (s, []) := rfl

/-- Unfolding lemma: running a cons of events steps once and then runs
the rest. -/
lemma run_cons (s : ManagerState) (e : Event) (es : List Event) :
    run s (e :: es) =
      match step s e with
      | none => none
      | some (s2, ups) =>
        match run s2 es with
        | none => none
        | some (s3, ups2) => some (s3, ups ++ ups2) := rfl

/-- Helper: a successful step followed by a successful run of the rest
composes, concatenating the upserts. -/
lemma run_cons_some {s s2 s3 : ManagerState} {e : Event} {es : List Event}
    {ups ups2 : List Upsert}
    (h1 : step s e = some (s2, ups)) (h2 : run s2 es = some (s3, ups2)) :
    run s (e :: es) = some (s3, ups ++ ups2) := by
  rw [run_cons, h1]
  show (match run s2 es with
    | none => none
    | some (s3, ups2) => some (s3, ups ++ ups2)) = some (s3, ups ++ ups2)
  rw [h2]

/-- Helper: running one outcome per remaining queue position from an
active session reaches the ended state, with one upsert per position
carrying the ids of the queue tail from the cursor on. -/
lemma run_outcomes (now : Int) :
    ∀ (bs : List Bool) (s : ManagerState) (cursor : Nat) (r : Bool),
      s.session = .active cursor r →
      cursor + bs.length = s.queue.length →
      bs ≠ [] →
      ∃ s2 ups, run s (bs.map (fun b => Event.outcome now b)) = some (s2, ups) ∧
        s2.session = .ended ∧ s2.queue = s.queue ∧
        ups.map (fun u => u.id) =
          (s.queue.drop cursor).map (fun c => c.id) := by
  intro bs
  induction bs with
  | nil => intro s cursor r hsess hlen hne; exact absurd rfl hne
  | cons b rest ih =>
    intro s cursor r hsess hlen hne
    have hcur : cursor < s.queue.length := by
      simp only [List.length_cons] at hlen
      omega
    rcases hq : s.queue.get? cursor with _ | c
    · rw [List.get?_eq_none] at hq
      omega
    have hstep := step_outcome_eq s now b cursor r c hsess hq
    have hqc : s.queue[cursor] = c := by
      have hgc : s.queue[cursor]? = some c := by
        rw [← List.get?_eq_getElem?]
        exact hq
      obtain ⟨hl, he⟩ := List.getElem?_eq_some.mp hgc
      exact he
    cases rest with
    | nil =>
      have hlast : ¬ cursor < s.queue.length - 1 := by
        simp only [List.length_cons, List.length_nil] at hlen
        omega
      rw [if_neg hlast] at hstep
      refine ⟨{ s with
          cards := updateCards s.cards c.id
            (handleReviewSchedule now c.box b).newBox
            (handleReviewSchedule now c.box b).nextReview,
          session := .ended },
        [⟨c.id, (handleReviewSchedule now c.box b).newBox,
          (handleReviewSchedule now c.box b).nextReview⟩], ?_, rfl, rfl, ?_⟩
      · show run s (Event.outcome now b :: []) = _
        exact run_cons_some hstep (run_nil _)
      · have hdrop : s.queue.drop (cursor + 1) = [] := by
          have h1 : cursor + 1 = s.queue.length := by
            simp only [List.length_cons, List.length_nil] at hlen
            omega
          rw [h1]
          exact List.drop_length _
        rw [List.drop_eq_getElem_cons hcur, hqc, hdrop]
        simp
    | cons b2 rest2 =>
      have hmid : cursor < s.queue.length - 1 := by
        simp only [List.length_cons] at hlen
        omega
      rw [if_pos hmid] at hstep
      obtain ⟨s2, ups, hrun, hend, hqueue, hids⟩ := ih
        ({ s with
            cards := updateCards s.cards c.id
              (handleReviewSchedule now c.box b).newBox
              (handleReviewSchedule now c.box b).nextReview,
            session := .active (cursor + 1) false })
        (cursor + 1) false rfl
        (by
          simp only [List.length_cons] at hlen ⊢
          omega)
        (by simp)
      refine ⟨s2, ⟨c.id, (handleReviewSchedule now c.box b).newBox,
          (handleReviewSchedule now c.box b).nextReview⟩ :: ups,
        ?_, hend, hqueue, ?_⟩
      · show run s (Event.outcome now b ::
          (b2 :: rest2).map (fun b => Event.outcome now b)) = _
        exact run_cons_some hstep hrun
      · rw [List.drop_eq_getElem_cons hcur, hqc]
        simp only [List.map_cons, List.cons.injEq]
        exact ⟨trivial, hids⟩

/-- Claim C6: one outcome transition from an active session at cursor
i issues exactly one upsert and either advances to Active(i+1, false)
when i + 1 < n or ends the session when i is the last index; and a
session started at cursor 0 over an n-card queue (n >= 1), in which
every card receives an outcome, reaches Ended after exactly n outcome
transitions with n upserts whose ids are the queue ids in order, hence
pairwise distinct whenever the queue ids are. -/
theorem session_progression :
    (∀ (s s2 : ManagerState) (cursor : Nat) (r : Bool) (now : Int)
      (success : Bool) (ups : List Upsert),
      s.session = .active cursor r →
      step s (.outcome now success) = some (s2, ups) →
      ups.length = 1 ∧
      (cursor + 1 < s.queue.length → s2.session = .active (cursor + 1) false) ∧
      (cursor + 1 = s.queue.length → s2.session = .ended)) ∧
    (∀ (s : ManagerState) (bs : List Bool) (now : Int),
      s.session = .active 0 false →
      bs.length = s.queue.length →
      1 ≤ s.queue.length →
      ∃ s2 ups, run s (bs.map (fun b => Event.outcome now b)) = some (s2, ups) ∧
        s2.session = .ended ∧
        ups.length = s.queue.length ∧
        ups.map (fun u => u.id) = s.queue.map (fun c => c.id) ∧
        ((s.queue.map (fun c => c.id)).Nodup →
          (ups.map (fun u => u.id)).Nodup)) := by
  constructor
  · intro s s2 cursor r now success ups hsess hstep
    rcases hq : s.queue.get? cursor with _ | c
    · rw [step_outcome_none s now success cursor r hsess hq] at hstep
      exact absurd hstep (by simp)
    · rw [step_outcome_eq s now success cursor r c hsess hq] at hstep
      have hpair := Option.some.inj hstep
      have hs2 := congrArg Prod.fst hpair
      have hups := congrArg Prod.snd hpair
      simp only at hs2 hups
      refine ⟨by rw [← hups]; rfl, ?_, ?_⟩
      · intro hlt
        rw [← hs2]
        show (if cursor < s.queue.length - 1 then
            SessionState.active (cursor + 1) false
          else SessionState.ended) = _
        rw [if_pos (by omega)]
      · intro heq
        rw [← hs2]
        show (if cursor < s.queue.length - 1 then
            SessionState.active (cursor + 1) false
          else SessionState.ended) = _
        rw [if_neg (by omega)]
  · intro s bs now hsess hlen hpos
    obtain ⟨s2, ups, hrun, hend, hqueue, hids⟩ :=
      run_outcomes now bs s 0 false hsess (by omega)
        (by
          intro hnil
          rw [hnil] at hlen
          simp at hlen
          omega)
    refine ⟨s2, ups, hrun, hend, ?_, ?_, ?_⟩
    · have := congrArg List.length hids
      simpa using this
    · simpa using hids
    · intro hnd
      rw [List.drop_zero] at hids
      rw [hids]
      exact hnd

/-- Witness for C6: a 2-card session answered true then false runs to
Ended with exactly 2 upserts. -/
theorem session_progression_witness :
    ∃ s2 ups,
      run ⟨[cardA, cardC], [cardA, cardC], SessionState.active 0 false⟩
        ([true, false].map (fun b => Event.outcome 10000 b)) = some (s2, ups) ∧
      s2.session = SessionState.ended ∧ ups.length = 2 := by
  obtain ⟨s2, ups, h1, h2, h3, -, -⟩ :=
    session_progression.2
      ⟨[cardA, cardC], [cardA, cardC], SessionState.active 0 false⟩
      [true, false] 10000 rfl rfl (by decide)
  exact ⟨s2, ups, h1, h2, by simpa using h3⟩

/-- Helper: a card whose id differs from the updated id is still in
the collection, unchanged, after updateCards. -/
lemma mem_updateCards_of_ne {cards : List FlashCard} {cid : String}
    {nb : Nat} {nr : Int} {c : FlashCard} (hc : c ∈ cards)
    (hne : c.id ≠ cid) : c ∈ updateCards cards cid nb nr := by
  unfold updateCards
  exact List.mem_map.mpr ⟨c, hc, by rw [if_neg hne]⟩

/-- Claim C7: quit from any active state ends the session with no
collection change and no upsert; reveal only toggles the flag with no
upsert; and in a 2-card session where the first card is revealed and
answered and then Quit is taken, exactly one upsert occurs (for the
id of the first card), the session is Ended, and every card other than the
first is still in the collection unchanged. -/
theorem quit_reveal_no_persist :
    (∀ (s : ManagerState) (cursor : Nat) (r : Bool),
      s.session = .active cursor r →
      step s .quit = some ({ s with session := .ended }, [])) ∧
    (∀ (s : ManagerState) (cursor : Nat) (r : Bool),
      s.session = .active cursor r →
      step s .reveal = some ({ s with session := .active cursor (!r) }, [])) ∧
    (∀ (s : ManagerState) (c1 c2 : FlashCard) (now : Int) (success : Bool),
      s.session = .active 0 false →
      s.queue = [c1, c2] →
      ∃ s2 ups,
        run s [.reveal, .outcome now success, .quit] = some (s2, ups) ∧
        ups.length = 1 ∧ ups.map (fun u => u.id) = [c1.id] ∧
        s2.session = .ended ∧
        ∀ c ∈ s.cards, c.id ≠ c1.id → c ∈ s2.cards) := by
  refine ⟨step_quit_eq, step_reveal_eq, ?_⟩
  intro s c1 c2 now success hsess hqueue
  have h1 := step_reveal_eq s 0 false hsess
  have hq1 : ({ s with session := SessionState.active 0 true } :
      ManagerState).queue.get? 0 = some c1 := by
    show s.queue.get? 0 = some c1
    rw [hqueue]
    rfl
  have h2 := step_outcome_eq { s with session := SessionState.active 0 true }
    now success 0 true c1 rfl hq1
  rw [if_pos (by
    show 0 < ({ s with session := SessionState.active 0 true } :
      ManagerState).queue.length - 1
    show 0 < s.queue.length - 1
    rw [hqueue]
    simp)] at h2
  have h3 := step_quit_eq { s with
      cards := updateCards s.cards c1.id
        (handleReviewSchedule now c1.box success).newBox
        (handleReviewSchedule now c1.box success).nextReview,
      session := SessionState.active 1 false } 1 false rfl
  refine ⟨_, _,
    run_cons_some h1 (run_cons_some h2 (run_cons_some h3 (run_nil _))),
    ?_, ?_, ?_, ?_⟩
  · rfl
  · rfl
  · rfl
  · intro c hc hne
    exact mem_updateCards_of_ne hc hne

/-- Witness for C7: the 2-card scenario on the fixture cards. -/
theorem quit_reveal_no_persist_witness :
    ∃ s2 ups,
      run ⟨[cardA, cardB], [cardA, cardB], SessionState.active 0 false⟩
        [Event.reveal, Event.outcome 10000 true, Event.quit] =
        some (s2, ups) ∧
      ups.length = 1 ∧ ups.map (fun u => u.id) = [cardA.id] ∧
      s2.session = SessionState.ended ∧
      ∀ c ∈ [cardA, cardB], c.id ≠ cardA.id → c ∈ s2.cards := by
  obtain ⟨s2, ups, h⟩ := quit_reveal_no_persist.2.2
    ⟨[cardA, cardB], [cardA, cardB], SessionState.active 0 false⟩
    cardA cardB 10000 true rfl rfl
  exact ⟨s2, ups, h⟩

/-- Helper: the number of cards whose id is cid equals the
multiplicity of cid among the ids of the collection. -/
lemma filter_id_length_eq_count (cards : List FlashCard) (cid : String) :
    (cards.filter (fun c => c.id = cid)).length =
      (cards.map (fun c => c.id)).count cid := by
  induction cards with
  | nil => simp
  | cons c cs ih =>
    by_cases h : c.id = cid
    · simp [List.filter_cons, List.count_cons, h, ih]
    · simp [List.filter_cons, List.count_cons, h, ih]

/-- Claim C8: updateCards preserves the collection length (no card
added or deleted); at a position holding a card with the matching id
the result holds that card with box and nextReview replaced and id,
front, back, createdAt, topic unchanged; at a position holding a card
with a different id the result holds the very same card; and when ids
are pairwise distinct and the id is present, exactly one card
matches it. -/
theorem update_by_id_spec (cards : List FlashCard) (cid : String) (nb : Nat)
    (nr : Int) :
    (updateCards cards cid nb nr).length = cards.length ∧
    (∀ (i : Nat) (c : FlashCard), cards.get? i = some c → c.id = cid →
      ∃ c2, (updateCards cards cid nb nr).get? i = some c2 ∧
        c2.box = nb ∧ c2.nextReview = nr ∧ c2.id = c.id ∧
        c2.front = c.front ∧ c2.back = c.back ∧
        c2.createdAt = c.createdAt ∧ c2.topic = c.topic) ∧
    (∀ (i : Nat) (c : FlashCard), cards.get? i = some c → c.id ≠ cid →
      (updateCards cards cid nb nr).get? i = some c) ∧
    ((cards.map (fun c => c.id)).Nodup → cid ∈ cards.map (fun c => c.id) →
      (cards.filter (fun c => c.id = cid)).length = 1) := by
  refine ⟨?_, ?_, ?_, ?_⟩
  · simp [updateCards]
  · intro i c hi he
    refine ⟨{ c with box := nb, nextReview := nr },
      ?_, rfl, rfl, rfl, rfl, rfl, rfl, rfl⟩
    unfold updateCards
    rw [List.get?_map, hi]
    simp [he]
  · intro i c hi hne
    unfold updateCards
    rw [List.get?_map, hi]
    simp [hne]
  · intro hnd hmem
    rw [filter_id_length_eq_count]
    exact List.count_eq_one_of_mem hnd hmem

/-- Witness for C8 on the fixture cards: updating id "a" in
[cardA, cardB] leaves cardB at position 1 and matches exactly one
card. -/
theorem update_by_id_spec_witness :
    (updateCards [cardA, cardB] "a" 3 20000).get? 1 = some cardB ∧
    ([cardA, cardB].filter (fun c => c.id = "a")).length = 1 := by
  refine ⟨?_, ?_⟩
  · exact (update_by_id_spec [cardA, cardB] "a" 3 20000).2.2.1 1 cardB rfl
      (by decide)
  · exact (update_by_id_spec [cardA, cardB] "a" 3 20000).2.2.2
      (by decide) (by decide)

/-- Helper: the scheduler output box never exceeds 6. -/
lemma newBox_le_six (now : Int) (b : Nat) (success : Bool) :
    (handleReviewSchedule now b success).newBox ≤ 6 := by
  cases success with
  | false => simp [handleReviewSchedule]
  | true =>
    show min (b + 1) intervals.length ≤ 6
    exact Nat.min_le_right _ _

/-- Helper: any card in an updated collection has either the written
box or the box of some card of the original collection. -/
lemma box_of_mem_updateCards {cards : List FlashCard} {cid : String}
    {nb : Nat} {nr : Int} {c : FlashCard}
    (hc : c ∈ updateCards cards cid nb nr) :
    c.box = nb ∨ ∃ a ∈ cards, c.box = a.box := by
  unfold updateCards at hc
  obtain ⟨a, ha, rfl⟩ := List.mem_map.mp hc
  by_cases h : a.id = cid
  · left
    simp [h]
  · right
    exact ⟨a, ha, by simp [h]⟩

/-- Helper: the collection after any accepted step is either unchanged
or an updateCards write of some scheduler output. -/
lemma step_cards_eq {s s2 : ManagerState} {e : Event} {ups : List Upsert}
    (hstep : step s e = some (s2, ups)) :
    s2.cards = s.cards ∨
    ∃ (cid : String) (now : Int) (b : Nat) (success : Bool),
      s2.cards = updateCards s.cards cid
        (handleReviewSchedule now b success).newBox
        (handleReviewSchedule now b success).nextReview := by
  obtain ⟨cs, q, sess⟩ := s
  cases e with
  | start n =>
    cases sess <;>
      · simp [step] at hstep
        obtain ⟨h1, -⟩ := hstep
        exact Or.inl (by rw [← h1])
  | reveal =>
    cases sess <;> simp [step] at hstep
    obtain ⟨h1, -⟩ := hstep
    exact Or.inl (by rw [← h1])
  | outcome n success =>
    cases sess with
    | notStarted => simp [step] at hstep
    | ended => simp [step] at hstep
    | active cursor r =>
      simp only [step] at hstep
      rcases hq : q.get? cursor with _ | c <;> rw [hq] at hstep
      · simp at hstep
      · simp at hstep
        obtain ⟨h1, -⟩ := hstep
        exact Or.inr ⟨c.id, n, c.box, success, by rw [← h1]⟩
  | quit =>
    cases sess <;> simp [step] at hstep
    obtain ⟨h1, -⟩ := hstep
    exact Or.inl (by rw [← h1])

/-- Helper: any card built by zipWith over generated records starts at
box 0. -/
lemma box_of_mem_zipWith_generated {now : Int} {fids : List String}
    {gs : List GeneratedCardData} {c : FlashCard}
    (hc : c ∈ List.zipWith (mkGeneratedCard now) fids gs) : c.box = 0 := by
  induction fids generalizing gs with
  | nil => simp at hc
  | cons f fs ih =>
    cases gs with
    | nil => simp at hc
    | cons g gs2 =>
      rw [List.zipWith_cons_cons] at hc
      rcases List.mem_cons.mp hc with rfl | hc2
      · rfl
      · exact ih hc2

/-- Claim C9: the box field stays in [0, 6]: seeded and generated
cards start at box 0; for currentBox in [0,6] the scheduler output
box is again in [0,6] (0 on failure, min(currentBox + 1, 6) on
success); card generation preserves the collection invariant; and
every accepted session step preserves it. -/
theorem box_invariant :
    (∀ now : Int, ∀ c ∈ seedCards now, c.box = 0) ∧
    (∀ (now : Int) (fid : String) (g : GeneratedCardData),
      (mkGeneratedCard now fid g).box = 0) ∧
    (∀ (now : Int) (b : Nat) (success : Bool), b ≤ 6 →
      (handleReviewSchedule now b success).newBox ≤ 6 ∧
      (success = false → (handleReviewSchedule now b success).newBox = 0) ∧
      (success = true →
        (handleReviewSchedule now b success).newBox = min (b + 1) 6)) ∧
    (∀ (now : Int) (fids : List String) (gs : List GeneratedCardData)
      (cards : List FlashCard), (∀ c ∈ cards, c.box ≤ 6) →
      ∀ c ∈ handleGenerate now fids gs cards, c.box ≤ 6) ∧
    (∀ (s s2 : ManagerState) (e : Event) (ups : List Upsert),
      (∀ c ∈ s.cards, c.box ≤ 6) → step s e = some (s2, ups) →
      ∀ c ∈ s2.cards, c.box ≤ 6) := by
  refine ⟨?_, ?_, ?_, ?_, ?_⟩
  · intro now c hc
    rcases List.mem_cons.mp hc with rfl | hc2
    · rfl
    · rcases List.mem_cons.mp hc2 with rfl | hc3
      · rfl
      · simp at hc3
  · intro now fid g
    rfl
  · intro now b success hb
    refine ⟨newBox_le_six now b success, ?_, ?_⟩
    · intro h
      rw [h]
      rfl
    · intro h
      rw [h]
      rfl
  · intro now fids gs cards hinv c hc
    rcases List.mem_append.mp hc with h | h
    · exact hinv c h
    · rw [box_of_mem_zipWith_generated h]
      omega
  · intro s s2 e ups hinv hstep c hc
    rcases step_cards_eq hstep with h | ⟨cid, n, b, success, h⟩
    · rw [h] at hc
      exact hinv c hc
    · rw [h] at hc
      rcases box_of_mem_updateCards hc with hb | ⟨a, ha, hb⟩
      · rw [hb]
        exact newBox_le_six n b success
      · rw [hb]
        exact hinv a ha

/-- Witness for C9: the scheduler at box 6 with a success stays within
[0, 6] and equals min(6 + 1, 6), and a generate step from an in-range
collection stays in range. -/
theorem box_invariant_witness :
    (handleReviewSchedule 0 6 true).newBox ≤ 6 ∧
    (handleReviewSchedule 0 6 true).newBox = min (6 + 1) 6 ∧
    (∀ c ∈ handleGenerate 0 ["x"] [⟨"f", "b", "t"⟩] [cardA], c.box ≤ 6) := by
  refine ⟨(box_invariant.2.2.1 0 6 true (by decide)).1,
    (box_invariant.2.2.1 0 6 true (by decide)).2.2 rfl,
    box_invariant.2.2.2.1 0 ["x"] [⟨"f", "b", "t"⟩] [cardA] ?_⟩
  intro c hc
  rcases List.mem_cons.mp hc with rfl | hc2
  · decide
  · simp at hc2

end FlashCards
